import Mathlib

/-!
# HashTable.cpp: a chained hash table of bids

A shallow embedding of `src/HashTable.cpp` (class `HashTable`, struct `Bid`,
struct `Node`) and proofs about its `Insert`, `Search`, `Remove`, `PrintAll`
and `hash` member functions.

Modelling conventions.

* `unsigned` values are natural numbers below `2 ^ 32`; `int` values are
  integers; the conversion of an `int` to `unsigned` is reduction modulo
  `2 ^ 32`.
* `double amount` is only ever default-initialised and copied by the table, so
  it is carried as its IEEE-754 binary64 bit pattern (`0.0` is pattern `0`).
* A `Node*` is either `nullptr` or the address of a heap node that the chain
  owns; chains are only ever extended at their tail with a fresh node, so they
  are finite and unshared and are represented by the inductive type `NodePtr`.
* `std::vector<Node> nodes` is a `List Node`.
* Operations that can throw or have undefined behaviour return `Except Fault`.
-/

namespace HashTableCpp

/-- The value of `UINT_MAX` for a 32-bit `unsigned`. -/
def UINT_MAX : Nat := 4294967295

/-- The value of `DEFAULT_SIZE`. -/
def DEFAULT_SIZE : Nat := 179

/-- The ways in which a call can fail to return normally. -/
inductive Fault where
  /-- `std::vector::at` threw `std::out_of_range`. -/
  | outOfRange
  /-- The operator `%` was applied with a zero right operand. -/
  | divisionByZero
  /-- The call `std::vector::erase` received an iterator that is not dereferenceable. -/
  | invalidErase
  deriving DecidableEq, Repr

deriving instance DecidableEq for Except

/-- The struct `Bid`; `amount` is the bit pattern of the `double`. -/
structure Bid where
  bidId : String
  title : String
  fund : String
  amount : Nat
  deriving DecidableEq, Repr

/-- The constructor `Bid()`: empty strings and `amount = 0.0`. -/
def Bid.default : Bid := { bidId := "", title := "", fund := "", amount := 0 }

/-- A value of type `Node*`: `nullptr`, or the address of an owned heap node
with its three fields. -/
inductive NodePtr where
  | null : NodePtr
  | node (bid : Bid) (key : Nat) (next : NodePtr) : NodePtr
  deriving DecidableEq, Repr

/-- The struct `Node` as stored by value in the vector. -/
structure Node where
  bid : Bid
  key : Nat
  next : NodePtr
  deriving DecidableEq, Repr

/-- The constructor `Node()`: `key = UINT_MAX`, `next = nullptr`, default bid. -/
def Node.default : Node := { bid := Bid.default, key := UINT_MAX, next := NodePtr.null }

/-- The constructor `Node(Bid, unsigned)` on the heap: `new Node(bid, key)`. -/
def NodePtr.new (bid : Bid) (key : Nat) : NodePtr := NodePtr.node bid key NodePtr.null

/-- The class `HashTable`: the vector `nodes` and the field `tableSize`. -/
structure HashTable where
  nodes : List Node
  tableSize : Nat
  deriving DecidableEq, Repr

/-- The constructor `HashTable(unsigned size)`: stores `size` and resizes the
vector to `size` default-constructed nodes. -/
def HashTable.new (size : Nat) : HashTable :=
  { nodes := List.replicate size Node.default, tableSize := size }

/-- The default constructor `HashTable()`: `tableSize` keeps its initialiser
`DEFAULT_SIZE`. -/
def HashTable.newDefault : HashTable := HashTable.new DEFAULT_SIZE

/-- The C library predicate `isspace` in the "C" locale. -/
def isspace (c : Char) : Bool :=
  c == ' ' || c == '\t' || c == '\n' || c == '\x0b' || c == '\x0c' || c == '\r'

/-- The digit loop of `strtol` in base 10: accumulate the leading decimal digits. -/
def atoiDigits (acc : Nat) : List Char → Nat
  | [] => acc
  | c :: cs => if c.isDigit then atoiDigits (acc * 10 + (c.toNat - 48)) cs else acc

/-- Conversion of a `long` to `int`: reduction modulo `2 ^ 32` into `[-2^31, 2^31)`. -/
def toInt32 (v : Int) : Int := (v + 2147483648) % 4294967296 - 2147483648

/-- The C library function `atoi` applied to `s.c_str()`: skip leading white
space, read an optional sign, then the longest run of decimal digits; no
digits gives `0`.  The C string ends at the first NUL character.  For values
outside the range of `int` the C standard leaves the result undefined; the
model follows the usual definition `(int) strtol(s, NULL, 10)` with a 64-bit
`long` (saturate to the range of `long`, then convert to `int`). -/
def atoi (s : String) : Int :=
  let cs := (s.toList.takeWhile (fun c => c != '\x00')).dropWhile isspace
  let v : Int :=
    match cs with
    | '-' :: ds => - (atoiDigits 0 ds : Int)
    | '+' :: ds => (atoiDigits 0 ds : Int)
    | ds => (atoiDigits 0 ds : Int)
  toInt32 (max (-9223372036854775808) (min v 9223372036854775807))

/-- The member function `hash`: `key % tableSize` where `key` is an `int` and
`tableSize` an `unsigned`, so `key` is first converted to `unsigned`. -/
def hash (tableSize : Nat) (key : Int) : Except Fault Nat :=
  if tableSize = 0 then Except.error Fault.divisionByZero
  else Except.ok ((key % 4294967296).toNat % tableSize)

/-- The call `nodes.at(key)`. -/
def vectorAt (nodes : List Node) (key : Nat) : Except Fault Node :=
  match nodes[key]? with
  | some n => Except.ok n
  | none => Except.error Fault.outOfRange

/-- The loop `while (oldNode->next != nullptr) oldNode = oldNode->next;`
followed by `oldNode->next = new Node(bid, key)`, seen from the `next` field
the walk starts at. -/
def NodePtr.attach : NodePtr → Bid → Nat → NodePtr
  | NodePtr.null, bid, key => NodePtr.new bid key
  | NodePtr.node b k nx, bid, key => NodePtr.node b k (NodePtr.attach nx bid key)

/-- The member function `Insert`.  The test `oldNode == nullptr` is on the
address of a vector element and is never true, so that branch is absent. -/
def HashTable.Insert (t : HashTable) (bid : Bid) : Except Fault HashTable := do
  let key ← hash t.tableSize (atoi bid.bidId)
  let oldNode ← vectorAt t.nodes key
  if oldNode.key = UINT_MAX then
    pure { t with nodes := t.nodes.set key { bid := bid, key := key, next := NodePtr.null } }
  else
    pure { t with nodes := t.nodes.set key { oldNode with next := oldNode.next.attach bid key } }

/-- The inner loop of `PrintAll`: the bids of the nodes reached through `next`. -/
def NodePtr.printChain : NodePtr → List Bid
  | NodePtr.null => []
  | NodePtr.node b _ nx => b :: NodePtr.printChain nx

/-- The body of the outer loop of `PrintAll` for one vector element: the bids
written to the output, in order. -/
def Node.print (n : Node) : List Bid :=
  if n.key ≠ UINT_MAX then n.bid :: n.next.printChain else []

/-- The member function `PrintAll`: the sequence of bids it writes, one line each. -/
def HashTable.PrintAll (t : HashTable) : List Bid :=
  (t.nodes.map Node.print).flatten

/-- The member function `Remove`: `nodes.erase(nodes.begin() + key)`.  Erasing
at a position that is not an element of the vector is undefined. -/
def HashTable.Remove (t : HashTable) (bidId : String) : Except Fault HashTable := do
  let key ← hash t.tableSize (atoi bidId)
  if key < t.nodes.length then
    pure { t with nodes := t.nodes.eraseIdx key }
  else
    Except.error Fault.invalidErase

/-- The loop `while (node != nullptr)` of `Search`, returning the default bid
when the chain is exhausted. -/
def NodePtr.search : NodePtr → String → Bid
  | NodePtr.null, _ => Bid.default
  | NodePtr.node b k nx, bidId =>
    if k ≠ UINT_MAX ∧ b.bidId = bidId then b else NodePtr.search nx bidId

/-- The member function `Search`. -/
def HashTable.Search (t : HashTable) (bidId : String) : Except Fault Bid := do
  let key ← hash t.tableSize (atoi bidId)
  let node ← vectorAt t.nodes key
  if node.key = UINT_MAX then
    pure Bid.default
  else if node.key ≠ UINT_MAX ∧ node.bid.bidId = bidId then
    pure node.bid
  else
    pure (NodePtr.search (NodePtr.node node.bid node.key node.next) bidId)

/-- A sequence of `Insert` calls, stopping at the first one that throws. -/
def HashTable.insertAll (t : HashTable) (bids : List Bid) : Except Fault HashTable :=
  bids.foldlM HashTable.Insert t

/-- A call made by a client of the table. -/
inductive Op where
  | insert (bid : Bid) : Op
  | remove (bidId : String) : Op
  deriving DecidableEq, Repr

/-- Apply one client call. -/
def HashTable.step (t : HashTable) : Op → Except Fault HashTable
  | Op.insert bid => t.Insert bid
  | Op.remove bidId => t.Remove bidId

/-- A sequence of client calls, stopping at the first one that fails. -/
def HashTable.run (t : HashTable) (ops : List Op) : Except Fault HashTable :=
  ops.foldlM HashTable.step t




/-! ## The state reached by a sequence of `Insert` calls -/

/-- The bids of `bids` that `hash` sends to bucket `i`, in their order in `bids`. -/
def bucketOf (cap i : Nat) (bids : List Bid) : List Bid :=
  bids.filter (fun b => hash cap (atoi b.bidId) = Except.ok i)

/-- The heap chain holding `bids`, every node with stored key `key`. -/
def chainOf (key : Nat) : List Bid → NodePtr
  | [] => NodePtr.null
  | b :: bs => NodePtr.node b key (chainOf key bs)

/-- The vector element holding the bucket `bids` at index `key`: a default
node when the bucket is empty, else the first bid with the rest chained. -/
def slotOf (key : Nat) : List Bid → Node
  | [] => Node.default
  | b :: bs => { bid := b, key := key, next := chainOf key bs }

/-- The table with capacity `cap` whose slot `i` holds exactly `bucketOf cap i bids`. -/
def tableOf (cap : Nat) (bids : List Bid) : HashTable :=
  { nodes := (List.range cap).map (fun i => slotOf i (bucketOf cap i bids)), tableSize := cap }

/-- The bucket index of an id string when the capacity is not zero. -/
def indexOf (cap : Nat) (bidId : String) : Nat :=
  ((atoi bidId) % 4294967296).toNat % cap

/-! ## Vocabulary of the claims -/

/-- The number written by a string of decimal digits. -/
def decimalValue (s : String) : Nat :=
  s.toList.foldl (fun acc c => acc * 10 + (c.toNat - 48)) 0

/-- An id that is a non-empty string of decimal digits whose value fits in an `int`. -/
def validId (s : String) : Prop :=
  s.toList ≠ [] ∧ (∀ c ∈ s.toList, c.isDigit = true) ∧ decimalValue s ≤ 2147483647

instance (s : String) : Decidable (validId s) := by
  unfold validId
  infer_instance

/-- The conversion of an `int` to `unsigned`, on values in the range of `int`. -/
def toUnsigned (key : Int) : Int := if 0 ≤ key then key else key + 4294967296

/-- The reference `Remove` semantics in the words of the specification: the
stored records are a list, `Insert` adds its record, and `Remove(id)` drops
exactly the stored records whose id hashes to the bucket index of `id`. -/
def referenceStep (cap : Nat) (stored : List Bid) : Op → List Bid
  | Op.insert bid => stored ++ [bid]
  | Op.remove bidId =>
    stored.filter (fun b => hash cap (atoi b.bidId) ≠ hash cap (atoi bidId))

/-- The records stored after a sequence of calls under the reference semantics;
its length is the number of `Insert` calls minus the number of records removed. -/
def referenceStored (cap : Nat) (ops : List Op) : List Bid :=
  ops.foldl (referenceStep cap) []

/-- The bid of the first scenario: id 98109, amount 500.00. -/
def bidParkAve : Bid :=
  { bidId := "98109", title := "Park Ave", fund := "F1", amount := 0x407F400000000000 }

/-- A second bid carrying the id of `bidParkAve`. -/
def bidLakeSt : Bid :=
  { bidId := "98109", title := "Lake St", fund := "F2", amount := 0 }

/-- A bid with id 1. -/
def bidOne : Bid := { bidId := "1", title := "one", fund := "F1", amount := 0 }

/-- A bid with id 2. -/
def bidTwo : Bid := { bidId := "2", title := "two", fund := "F1", amount := 0 }

/-- A bid with id 5. -/
def bidFive : Bid := { bidId := "5", title := "five", fund := "F1", amount := 0 }

/-- A bid with id 178. -/
def bidLast : Bid := { bidId := "178", title := "last", fund := "F1", amount := 0 }

/-- A bid with id 180, which shares bucket 1 with id 1 when the capacity is 179. -/
def bidOneEighty : Bid := { bidId := "180", title := "one-eighty", fund := "F1", amount := 0 }

/-- The constructor call `HashTable(size)` seen as an operation that may fail:
its body is an assignment and a `resize`, with no test of `size` and no
`throw`, so it returns the constructed table. -/
def HashTable.construct (size : Nat) : Except Fault HashTable :=
  Except.ok (HashTable.new size)

/-- The nodes reached from a `Node*` by following `next`, each as the pair of
its bid and its stored key. -/
def NodePtr.entries : NodePtr → List (Bid × Nat)
  | NodePtr.null => []
  | NodePtr.node b k nx => (b, k) :: NodePtr.entries nx

/-- The characters from which `atoi` reads its digits: the C string without
its leading white space and without one leading sign. -/
def digitStart (s : String) : List Char :=
  match (s.toList.takeWhile (fun c => c != '\x00')).dropWhile isspace with
  | '-' :: ds => ds
  | '+' :: ds => ds
  | ds => ds

/-- An id in which a decimal digit follows the optional white space and sign. -/
def startsWithNumber (s : String) : Bool :=
  match digitStart s with
  | [] => false
  | c :: _ => c.isDigit

/-- A bid whose id holds a letter after two digits. -/
def bidTwelveAb : Bid := { bidId := "12ab", title := "twelve", fund := "F1", amount := 0 }

/-- A bid whose id is the empty string. -/
def bidNoId : Bid := { bidId := "", title := "no id", fund := "F1", amount := 0 }

/-- A bid whose id has no digit. -/
def bidAbc : Bid := { bidId := "abc", title := "letters", fund := "F1", amount := 0 }

/-! ## Basic facts -/

theorem hash_eq_ok {cap : Nat} (hcap : 0 < cap) (key : Int) :
    hash cap key = Except.ok ((key % 4294967296).toNat % cap) := by
  unfold hash
  rw [if_neg (Nat.pos_iff_ne_zero.mp hcap)]

theorem hash_atoi {cap : Nat} (hcap : 0 < cap) (bidId : String) :
    hash cap (atoi bidId) = Except.ok (indexOf cap bidId) :=
  hash_eq_ok hcap _

theorem indexOf_lt {cap : Nat} (hcap : 0 < cap) (bidId : String) : indexOf cap bidId < cap :=
  Nat.mod_lt _ hcap

theorem bucketOf_eq {cap : Nat} (hcap : 0 < cap) (i : Nat) (bids : List Bid) :
    bucketOf cap i bids = bids.filter (fun b => indexOf cap b.bidId = i) := by
  unfold bucketOf
  congr 1
  funext b
  rw [hash_atoi hcap]
  simp

theorem bucketOf_append (cap i : Nat) (xs ys : List Bid) :
    bucketOf cap i (xs ++ ys) = bucketOf cap i xs ++ bucketOf cap i ys := by
  simp [bucketOf]

theorem bucketOf_single_self {cap : Nat} (hcap : 0 < cap) (r : Bid) :
    bucketOf cap (indexOf cap r.bidId) [r] = [r] := by
  simp [bucketOf_eq hcap]

theorem bucketOf_single_other {cap : Nat} (hcap : 0 < cap) (r : Bid) {i : Nat}
    (hi : i ≠ indexOf cap r.bidId) : bucketOf cap i [r] = [] := by
  simp [bucketOf_eq hcap, Ne.symm hi]

theorem mem_bucketOf {cap : Nat} (hcap : 0 < cap) (i : Nat) (bids : List Bid) (b : Bid) :
    b ∈ bucketOf cap i bids ↔ b ∈ bids ∧ indexOf cap b.bidId = i := by
  simp [bucketOf_eq hcap]

theorem vectorAt_map_range (cap : Nat) (f : Nat → Node) {k : Nat} (hk : k < cap) :
    vectorAt ((List.range cap).map f) k = Except.ok (f k) := by
  simp [vectorAt, List.getElem?_map, List.getElem?_range hk]

theorem vectorAt_tableOf {cap : Nat} (bids : List Bid) {k : Nat} (hk : k < cap) :
    vectorAt (tableOf cap bids).nodes k = Except.ok (slotOf k (bucketOf cap k bids)) :=
  vectorAt_map_range cap _ hk

theorem attach_chainOf (key : Nat) (bids : List Bid) (r : Bid) :
    (chainOf key bids).attach r key = chainOf key (bids ++ [r]) := by
  induction bids with
  | nil => rfl
  | cons b bs ih => simp [chainOf, NodePtr.attach, ih]

theorem printChain_chainOf (key : Nat) (bids : List Bid) :
    (chainOf key bids).printChain = bids := by
  induction bids with
  | nil => rfl
  | cons b bs ih => simp [chainOf, NodePtr.printChain, ih]

theorem print_slotOf {key : Nat} (hkey : key ≠ UINT_MAX) (bids : List Bid) :
    (slotOf key bids).print = bids := by
  cases bids with
  | nil => simp [slotOf, Node.print, Node.default]
  | cons b bs => simp [slotOf, Node.print, hkey, printChain_chainOf]

theorem search_chainOf {key : Nat} (hkey : key ≠ UINT_MAX) (bids : List Bid) (bidId : String) :
    (chainOf key bids).search bidId
      = (bids.find? (fun b => b.bidId = bidId)).getD Bid.default := by
  induction bids with
  | nil => rfl
  | cons b bs ih =>
    by_cases hb : b.bidId = bidId
    · simp [chainOf, NodePtr.search, hkey, hb]
    · simp [chainOf, NodePtr.search, hb, ih]

theorem tableOf_nil (cap : Nat) : tableOf cap [] = HashTable.new cap := by
  unfold tableOf HashTable.new
  congr 1
  apply List.ext_getElem
  · simp
  · intro n h₁ h₂
    simp [bucketOf, slotOf]

/-- One `Insert` on the table holding `bids` gives the table holding `bids ++ [r]`. -/
theorem insert_tableOf {cap : Nat} (hcap : 0 < cap) (hmax : cap < 4294967296)
    (bids : List Bid) (r : Bid) :
    (tableOf cap bids).Insert r = Except.ok (tableOf cap (bids ++ [r])) := by
  have hk : indexOf cap r.bidId < cap := indexOf_lt hcap r.bidId
  have hne : indexOf cap r.bidId ≠ UINT_MAX := by unfold UINT_MAX; omega
  unfold HashTable.Insert
  have htab : (tableOf cap bids).tableSize = cap := rfl
  rw [htab, hash_atoi hcap]
  simp only [bind, Except.bind, vectorAt_tableOf bids hk, pure, Except.pure]
  have hset : ∀ v : Node, v = slotOf (indexOf cap r.bidId) (bucketOf cap (indexOf cap r.bidId) (bids ++ [r])) →
      (Except.ok (HashTable.mk ((tableOf cap bids).nodes.set (indexOf cap r.bidId) v) cap)
          : Except Fault HashTable) = Except.ok (tableOf cap (bids ++ [r])) := by
    intro v hv
    unfold tableOf
    simp only [Except.ok.injEq, HashTable.mk.injEq, and_true]
    apply List.ext_getElem
    · simp
    · intro n h₁ h₂
      simp only [List.getElem_set, List.getElem_map, List.getElem_range]
      by_cases hn : indexOf cap r.bidId = n
      · rw [if_pos hn, hv, hn]
      · rw [if_neg hn, bucketOf_append, bucketOf_single_other hcap r (Ne.symm hn), List.append_nil]
  rw [bucketOf_append, bucketOf_single_self hcap] at hset
  cases hb : bucketOf cap (indexOf cap r.bidId) bids with
  | nil =>
    rw [hb] at hset
    simp only [slotOf, Node.default, if_true]
    exact hset _ (by simp [slotOf, chainOf])
  | cons b bs =>
    rw [hb] at hset
    simp only [slotOf, if_neg hne]
    exact hset _ (by simp [slotOf, attach_chainOf])

/-- A sequence of `Insert` calls on the table holding `pre` never throws and
gives the table holding `pre ++ bids`. -/
theorem insertAll_tableOf {cap : Nat} (hcap : 0 < cap) (hmax : cap < 4294967296)
    (pre bids : List Bid) :
    (tableOf cap pre).insertAll bids = Except.ok (tableOf cap (pre ++ bids)) := by
  induction bids generalizing pre with
  | nil => simp [HashTable.insertAll, pure, Except.pure]
  | cons b bs ih =>
    have h := ih (pre ++ [b])
    simp only [HashTable.insertAll, List.foldlM_cons, insert_tableOf hcap hmax, bind,
      Except.bind] at h ⊢
    simpa using h

theorem insertAll_new {cap : Nat} (hcap : 0 < cap) (hmax : cap < 4294967296)
    (bids : List Bid) :
    (HashTable.new cap).insertAll bids = Except.ok (tableOf cap bids) := by
  rw [← tableOf_nil, insertAll_tableOf hcap hmax]
  simp

theorem printAll_tableOf {cap : Nat} (hmax : cap < 4294967296) (bids : List Bid) :
    (tableOf cap bids).PrintAll = ((List.range cap).map (fun i => bucketOf cap i bids)).flatten := by
  unfold HashTable.PrintAll tableOf
  simp only [List.map_map]
  congr 1
  apply List.map_congr_left
  intro i hi
  have hi' : i < cap := List.mem_range.mp hi
  exact print_slotOf (by unfold UINT_MAX; omega) _

/-- The result of `Search` on the table holding `bids`: the first bid of
`bids` with the queried id string, or the default bid. -/
theorem search_tableOf {cap : Nat} (hcap : 0 < cap) (hmax : cap < 4294967296)
    (bids : List Bid) (bidId : String) :
    (tableOf cap bids).Search bidId
      = Except.ok ((bids.find? (fun b => b.bidId = bidId)).getD Bid.default) := by
  have hk : indexOf cap bidId < cap := indexOf_lt hcap bidId
  have hne : indexOf cap bidId ≠ UINT_MAX := by unfold UINT_MAX; omega
  have hfind : (bucketOf cap (indexOf cap bidId) bids).find? (fun b => b.bidId = bidId)
      = bids.find? (fun b => b.bidId = bidId) := by
    rw [bucketOf_eq hcap, List.find?_filter]
    congr 1
    funext b
    by_cases hb : b.bidId = bidId
    · simp [hb]
    · simp [hb]
  unfold HashTable.Search
  have htab : (tableOf cap bids).tableSize = cap := rfl
  rw [htab, hash_atoi hcap]
  simp only [bind, Except.bind, vectorAt_tableOf bids hk, pure, Except.pure]
  rw [← hfind]
  cases hb : bucketOf cap (indexOf cap bidId) bids with
  | nil => simp [slotOf, Node.default]
  | cons b bs =>
    simp only [slotOf, if_neg hne]
    by_cases hid : b.bidId = bidId
    · simp [hid, hne]
    · simp [hid, NodePtr.search, search_chainOf hne]

/-! ## The effect of `Remove` on a table built by `Insert` calls -/

theorem eraseIdx_map_eq {α β : Type} (f : α → β) (l : List α) (k : Nat) :
    (l.map f).eraseIdx k = (l.eraseIdx k).map f := by
  induction l generalizing k with
  | nil => rfl
  | cons a as ih =>
    cases k with
    | zero => rfl
    | succ k => simp [List.eraseIdx, ih]

theorem eraseIdx_range {cap k : Nat} (hk : k < cap) :
    (List.range cap).eraseIdx k = (List.range cap).filter (fun i => i != k) := by
  have h := (List.nodup_range cap).erase_getElem k (by simpa using hk)
  rw [← h, List.getElem_range, (List.nodup_range cap).erase_eq_filter]

theorem filter_bucketOf_self {cap : Nat} (hcap : 0 < cap) (k : Nat) (bids : List Bid) :
    (bucketOf cap k bids).filter (fun b => hash cap (atoi b.bidId) ≠ Except.ok k) = [] := by
  rw [List.filter_eq_nil_iff]
  intro b hb
  have := (mem_bucketOf hcap k bids b).mp hb
  simp [hash_atoi hcap, this.2]

theorem filter_bucketOf_other {cap : Nat} (hcap : 0 < cap) {i k : Nat} (hik : i ≠ k)
    (bids : List Bid) :
    (bucketOf cap i bids).filter (fun b => hash cap (atoi b.bidId) ≠ Except.ok k)
      = bucketOf cap i bids := by
  rw [List.filter_eq_self]
  intro b hb
  have := (mem_bucketOf hcap i bids b).mp hb
  simp [hash_atoi hcap, this.2, hik]

theorem filter_flatten_buckets {cap : Nat} (hcap : 0 < cap) (k : Nat) (bids : List Bid)
    (l : List Nat) :
    ((l.map (fun i => bucketOf cap i bids)).flatten).filter
        (fun b => hash cap (atoi b.bidId) ≠ Except.ok k)
      = ((l.filter (fun i => i != k)).map (fun i => bucketOf cap i bids)).flatten := by
  induction l with
  | nil => rfl
  | cons i is ih =>
    rw [List.map_cons, List.flatten_cons, List.filter_append, ih]
    by_cases hik : i = k
    · subst hik
      rw [filter_bucketOf_self hcap, List.nil_append, List.filter_cons_of_neg (by simp)]
    · rw [filter_bucketOf_other hcap hik, List.filter_cons_of_pos (by simpa using hik),
        List.map_cons, List.flatten_cons]

theorem remove_tableOf {cap : Nat} (hcap : 0 < cap) (bids : List Bid) (bidId : String) :
    (tableOf cap bids).Remove bidId
      = Except.ok { nodes := (tableOf cap bids).nodes.eraseIdx (indexOf cap bidId),
                    tableSize := cap } := by
  have hk : indexOf cap bidId < cap := indexOf_lt hcap bidId
  unfold HashTable.Remove
  have htab : (tableOf cap bids).tableSize = cap := rfl
  have hlen : (tableOf cap bids).nodes.length = cap := by simp [tableOf]
  rw [htab, hash_atoi hcap, hlen]
  simp [bind, Except.bind, hk, pure, Except.pure, htab]

theorem printAll_remove_tableOf {cap : Nat} (hcap : 0 < cap) (hmax : cap < 4294967296)
    (bids : List Bid) (k : Nat) (hk : k < cap) :
    HashTable.PrintAll { nodes := (tableOf cap bids).nodes.eraseIdx k, tableSize := cap }
      = (tableOf cap bids).PrintAll.filter (fun b => hash cap (atoi b.bidId) ≠ Except.ok k) := by
  rw [printAll_tableOf hmax, filter_flatten_buckets hcap]
  unfold HashTable.PrintAll tableOf
  simp only [eraseIdx_map_eq, eraseIdx_range hk, List.map_map]
  congr 1
  apply List.map_congr_left
  intro i hi
  have hi' : i < cap := List.mem_range.mp (List.mem_of_mem_filter hi)
  exact print_slotOf (by unfold UINT_MAX; omega) _

/-! ## Insert and Search -/

/-- Claim C1, as stated, fails when the id is already stored: with capacity
179, after `Insert` of a bid with id "98109" and then `Insert` of a second,
different bid `r` with the same valid id, `Search(r.id)` returns the first bid
and not `r`. -/
theorem insert_then_search_returns_older_duplicate :
    validId bidLakeSt.bidId ∧
    (do
      let t ← (HashTable.new 179).insertAll [bidParkAve]
      let t' ← t.Insert bidLakeSt
      t'.Search bidLakeSt.bidId) = Except.ok bidParkAve ∧
    bidParkAve ≠ bidLakeSt := by
  set_option maxRecDepth 100000 in decide

/-- Claim C1 (amended): for every capacity in `(0, 2^32)`, every table reached
from a fresh one by a sequence of `Insert` calls, and every record `r` whose id
is a non-empty string of decimal digits within `int` range and differs from the
id of every record inserted before, the `Insert` calls return normally and
`Search(r.id)` right after `Insert(r)` returns exactly `r`. -/
theorem insert_then_search (cap : Nat) (bids : List Bid) (r : Bid)
    (hcap : 0 < cap) (hmax : cap < 4294967296) (_hid : validId r.bidId)
    (hfresh : ∀ b ∈ bids, b.bidId ≠ r.bidId) :
    ∃ t t', (HashTable.new cap).insertAll bids = Except.ok t ∧
      t.Insert r = Except.ok t' ∧ t'.Search r.bidId = Except.ok r := by
  refine ⟨tableOf cap bids, tableOf cap (bids ++ [r]), insertAll_new hcap hmax bids,
    insert_tableOf hcap hmax bids r, ?_⟩
  rw [search_tableOf hcap hmax, List.find?_append]
  have hnone : bids.find? (fun b => b.bidId = r.bidId) = none := by
    rw [List.find?_eq_none]
    intro b hb
    simpa using hfresh b hb
  simp [hnone]

/-- Claim C1, scenario: capacity 179, `Insert` of the bid with id "98109" into
the fresh table, then `Search("98109")` returns that bid. -/
theorem insert_then_search_witness :
    (0 < 179 ∧ 179 < 4294967296 ∧ validId bidParkAve.bidId ∧
      ∀ b ∈ ([] : List Bid), b.bidId ≠ bidParkAve.bidId) ∧
    ∃ t t', (HashTable.new 179).insertAll [] = Except.ok t ∧
      t.Insert bidParkAve = Except.ok t' ∧ t'.Search "98109" = Except.ok bidParkAve :=
  ⟨⟨by decide, by decide, by decide, by simp⟩,
    insert_then_search 179 [] bidParkAve (by decide) (by decide) (by decide) (by simp)⟩

/-- Claim C2: for every capacity in `(0, 2^32)` and every id string, `Search`
on the fresh table returns the default bid (empty id, title and fund, amount
0); and on the table built from the fresh one by `Insert` calls none of whose
records has that id string, the calls return normally and `Search` returns the
default bid as well. -/
theorem search_not_found (cap : Nat) (hcap : 0 < cap) (hmax : cap < 4294967296)
    (bidId : String) :
    (HashTable.new cap).Search bidId = Except.ok Bid.default ∧
    Bid.default = { bidId := "", title := "", fund := "", amount := 0 } ∧
    ∀ bids : List Bid, (∀ b ∈ bids, b.bidId ≠ bidId) →
      ∃ t, (HashTable.new cap).insertAll bids = Except.ok t ∧
        t.Search bidId = Except.ok Bid.default := by
  refine ⟨?_, rfl, ?_⟩
  · rw [← tableOf_nil, search_tableOf hcap hmax]
    rfl
  · intro bids hne
    refine ⟨tableOf cap bids, insertAll_new hcap hmax bids, ?_⟩
    rw [search_tableOf hcap hmax]
    have hnone : bids.find? (fun b => b.bidId = bidId) = none := by
      rw [List.find?_eq_none]
      intro b hb
      simpa using hne b hb
    simp [hnone]

/-- Claim C2, scenario: capacity 179, after `Insert` of id "98109",
`Search("99999")` returns the default bid. -/
theorem search_not_found_witness :
    (0 < 179 ∧ 179 < 4294967296) ∧
    (HashTable.new 179).Search "99999" = Except.ok Bid.default ∧
    ∃ t, (HashTable.new 179).insertAll [bidParkAve] = Except.ok t ∧
      t.Search "99999" = Except.ok Bid.default :=
  ⟨⟨by decide, by decide⟩,
    (search_not_found 179 (by decide) (by decide) "99999").1,
    (search_not_found 179 (by decide) (by decide) "99999").2.2 [bidParkAve]
      (by simp [bidParkAve])⟩

/-! ## PrintAll -/

/-- Claim C3: for every capacity in `(0, 2^32)` and every sequence of records
inserted into a fresh table, the `Insert` calls return normally and `PrintAll`
writes exactly the concatenation, over the bucket indices `0, 1, ..., cap - 1`
in ascending order, of the inserted records whose `hash(atoi(id))` is that
index, each group in insertion order. -/
theorem printAll_enumeration_order (cap : Nat) (hcap : 0 < cap) (hmax : cap < 4294967296)
    (bids : List Bid) :
    ∃ t, (HashTable.new cap).insertAll bids = Except.ok t ∧
      t.PrintAll = ((List.range cap).map (fun i =>
        bids.filter (fun b => hash cap (atoi b.bidId) = Except.ok i))).flatten :=
  ⟨tableOf cap bids, insertAll_new hcap hmax bids, printAll_tableOf hmax bids⟩

/-- Claim C3, scenario: capacity 179, ids "1" then "180" fall in the same
bucket and `PrintAll` writes exactly those two records, "1" before "180". -/
theorem printAll_enumeration_order_witness :
    (0 < 179 ∧ 179 < 4294967296) ∧
    hash 179 (atoi "1") = hash 179 (atoi "180") ∧
    ∃ t, (HashTable.new 179).insertAll [bidOne, bidOneEighty] = Except.ok t ∧
      t.PrintAll = [bidOne, bidOneEighty] := by
  refine ⟨⟨by decide, by decide⟩, by decide, ?_⟩
  obtain ⟨t, ht, hp⟩ :=
    printAll_enumeration_order 179 (by decide) (by decide) [bidOne, bidOneEighty]
  refine ⟨t, ht, hp.trans ?_⟩
  set_option maxRecDepth 100000 in decide

/-! ## Remove -/

/-- Claim C7: for every capacity in `(0, 2^32)`, every table built from a fresh
one by `Insert` calls only, and every id `X` with bucket index `k`, the call
`Remove(X)` returns normally and afterwards `PrintAll` writes no record whose
id hashes to `k`, whatever its id string; what it writes is what it wrote
before without the records of bucket `k`. -/
theorem remove_deletes_whole_bucket (cap : Nat) (hcap : 0 < cap) (hmax : cap < 4294967296)
    (bids : List Bid) (X : String) :
    ∃ t t' k, (HashTable.new cap).insertAll bids = Except.ok t ∧
      hash cap (atoi X) = Except.ok k ∧ t.Remove X = Except.ok t' ∧
      (∀ b ∈ t'.PrintAll, hash cap (atoi b.bidId) ≠ Except.ok k) ∧
      t'.PrintAll = t.PrintAll.filter (fun b => hash cap (atoi b.bidId) ≠ Except.ok k) := by
  have hk : indexOf cap X < cap := indexOf_lt hcap X
  have hp := printAll_remove_tableOf hcap hmax bids (indexOf cap X) hk
  refine ⟨tableOf cap bids, _, indexOf cap X, insertAll_new hcap hmax bids, hash_atoi hcap X,
    remove_tableOf hcap bids X, ?_, hp⟩
  intro b hb
  rw [hp] at hb
  simpa using (List.mem_filter.mp hb).2

/-- Claim C7, scenario: capacity 179, ids "1" and "180" share a bucket;
after `Remove("1")` neither is written by `PrintAll`. -/
theorem remove_deletes_whole_bucket_witness :
    (0 < 179 ∧ 179 < 4294967296) ∧
    ∃ t t' k, (HashTable.new 179).insertAll [bidOne, bidOneEighty] = Except.ok t ∧
      hash 179 (atoi "1") = Except.ok k ∧ t.Remove "1" = Except.ok t' ∧
      (∀ b ∈ t'.PrintAll, hash 179 (atoi b.bidId) ≠ Except.ok k) ∧
      t'.PrintAll = t.PrintAll.filter (fun b => hash 179 (atoi b.bidId) ≠ Except.ok k) :=
  ⟨⟨by decide, by decide⟩,
    remove_deletes_whole_bucket 179 (by decide) (by decide) [bidOne, bidOneEighty] "1"⟩

/-- Claim C4 fails on the code: with capacity 3, the calls `Insert` of id "1",
`Remove("0")`, `Remove("1")` all return normally and `PrintAll` then writes one
record, while one `Insert` minus the records removed under the reference
semantics leaves none.  The second `Remove` erases the vector element that the
first `Remove` shifted into position 1, not the bucket of id "1". -/
theorem printAll_count_after_two_removes :
    (do
      let t ← (HashTable.new 3).run [Op.insert bidOne, Op.remove "0", Op.remove "1"]
      pure t.PrintAll) = Except.ok [bidOne] ∧
    referenceStored 3 [Op.insert bidOne, Op.remove "0", Op.remove "1"] = [] := by
  decide

/-- Claim C5 fails on the code: with capacity 179 and the record with id "5"
stored, `Search("5")` returns it; id "3" hashes to a different bucket, yet after
`Remove("3")` the record sits at position 4 of the vector and `Search("5")`
returns the default bid. -/
theorem remove_moves_later_buckets :
    hash 179 (atoi "5") ≠ hash 179 (atoi "3") ∧
    (do
      let t ← (HashTable.new 179).insertAll [bidFive]
      t.Search "5") = Except.ok bidFive ∧
    (do
      let t ← (HashTable.new 179).insertAll [bidFive]
      let t' ← t.Remove "3"
      t'.Search "5") = Except.ok Bid.default ∧
    (do
      let t ← (HashTable.new 179).insertAll [bidFive]
      let t' ← t.Remove "3"
      vectorAt t'.nodes 4) = Except.ok { bid := bidFive, key := 5, next := NodePtr.null } := by
  set_option maxRecDepth 100000 in decide

/-- Claim C6 fails on the code: with capacity 179 and the records with ids "1"
and "2" stored, after `Remove("1")` the vector element at index 1 is not the
empty sentinel but the head of the chain of id "2", and the vector has 178
elements. -/
theorem remove_leaves_next_bucket_in_slot :
    hash 179 (atoi "1") = Except.ok 1 ∧
    (do
      let t ← (HashTable.new 179).insertAll [bidOne, bidTwo]
      let t' ← t.Remove "1"
      vectorAt t'.nodes 1) = Except.ok { bid := bidTwo, key := 2, next := NodePtr.null } ∧
    (do
      let t ← (HashTable.new 179).insertAll [bidOne, bidTwo]
      let t' ← t.Remove "1"
      pure t'.nodes.length) = Except.ok 178 := by
  set_option maxRecDepth 100000 in decide

/-- Claim C8 fails on the code: with capacity 179, after `Remove("0")` on the
fresh table the vector has 178 elements while `hash` still reduces modulo 179,
so `Search("178")` and `Insert` of a record with id "178" both end in
`std::out_of_range`. -/
theorem insert_and_search_throw_after_remove :
    hash 179 (atoi "178") = Except.ok 178 ∧
    (do
      let t ← (HashTable.new 179).run [Op.remove "0"]
      t.Search "178") = Except.error Fault.outOfRange ∧
    (do
      let t ← (HashTable.new 179).run [Op.remove "0"]
      t.Insert bidLast) = Except.error Fault.outOfRange := by
  set_option maxRecDepth 100000 in decide

/-- Without `Remove`, the slot access never fails: on every table built from a
fresh one of capacity in `(0, 2^32)` by `Insert` calls, `Search` and a further
`Insert` return normally. -/
theorem insert_and_search_return_without_remove (cap : Nat) (hcap : 0 < cap)
    (hmax : cap < 4294967296) (bids : List Bid) (bidId : String) (r : Bid) :
    ∃ t, (HashTable.new cap).insertAll bids = Except.ok t ∧
      (∃ b, t.Search bidId = Except.ok b) ∧ (∃ t', t.Insert r = Except.ok t') :=
  ⟨tableOf cap bids, insertAll_new hcap hmax bids, ⟨_, search_tableOf hcap hmax bids bidId⟩,
    ⟨_, insert_tableOf hcap hmax bids r⟩⟩

/-! ## hash -/

/-- Claim C9: for every capacity greater than 0 and every `int` key, negative
keys included, `hash(key)` returns an index `i` with `0 ≤ i < capacity`, which
is a valid index into the vector of the freshly constructed table. -/
theorem hash_in_range (cap : Nat) (hcap : 0 < cap) (key : Int) :
    ∃ i, hash cap key = Except.ok i ∧ 0 ≤ i ∧ i < cap ∧
      i < (HashTable.new cap).nodes.length := by
  refine ⟨_, hash_eq_ok hcap key, Nat.zero_le _, Nat.mod_lt _ hcap, ?_⟩
  simpa [HashTable.new] using Nat.mod_lt _ hcap

/-- Claim C9 at capacity 179 and key `-1`. -/
theorem hash_in_range_witness :
    0 < 179 ∧ ∃ i, hash 179 (-1) = Except.ok i ∧ 0 ≤ i ∧ i < 179 ∧
      i < (HashTable.new 179).nodes.length :=
  ⟨by decide, hash_in_range 179 (by decide) (-1)⟩

/-- Claim C10, as stated, fails for negative keys: with capacity 179 the keys
`-1` and `178` are congruent modulo 179, the index congruent to `-1` is 178,
and `hash(-1)` is 125 while `hash(178)` is 178. -/
theorem hash_negative_key_not_congruent :
    hash 179 (-1) = Except.ok 125 ∧ hash 179 178 = Except.ok 178 ∧
    (-1 : Int) % 179 = 178 % 179 ∧ (-1 : Int) % 179 = 178 := by
  decide

/-- Claim C10 (amended): for every capacity greater than 0 and every `int` key,
`hash(key)` is the unique index in `[0, capacity)` congruent modulo capacity to
the key converted to `unsigned` (the key itself when it is not negative, the
key plus `2^32` when it is negative); hence for a key that is not negative it
is the key modulo capacity, and two keys that are not negative and congruent
modulo capacity get the same index. -/
theorem hash_is_unsigned_key_modulo (cap : Nat) (hcap : 0 < cap) (key key' : Int)
    (hlo : -2147483648 ≤ key) (hhi : key ≤ 2147483647) :
    (∃ i, hash cap key = Except.ok i ∧ i < cap ∧
      (i : Int) % cap = toUnsigned key % cap ∧
      ∀ j : Nat, j < cap → (j : Int) % cap = toUnsigned key % cap → j = i) ∧
    (0 ≤ key → hash cap key = Except.ok (key % cap).toNat) ∧
    (0 ≤ key → 0 ≤ key' → key' ≤ 2147483647 → key % cap = key' % cap →
      hash cap key = hash cap key') := by
  have hconv : ∀ x : Int, -2147483648 ≤ x → x ≤ 2147483647 →
      x % 4294967296 = toUnsigned x := by
    intro x h1 h2
    unfold toUnsigned
    split_ifs with h <;> omega
  have hnn : ∀ x : Int, 0 ≤ x → x ≤ 2147483647 →
      hash cap x = Except.ok (x % cap).toNat := by
    intro x h1 h2
    rw [hash_eq_ok hcap, hconv x (by omega) h2]
    unfold toUnsigned
    rw [if_pos h1]
    congr 1
    have hc : (0 : Int) < cap := by exact_mod_cast hcap
    have h0 : 0 ≤ x % (cap : Int) := Int.emod_nonneg _ (by omega)
    zify
    rw [Int.toNat_of_nonneg h1, Int.toNat_of_nonneg h0]
  refine ⟨⟨_, hash_eq_ok hcap key, Nat.mod_lt _ hcap, ?_, ?_⟩, ?_, ?_⟩
  · rw [← hconv key hlo hhi]
    have h0 : (0 : Int) ≤ key % 4294967296 := Int.emod_nonneg _ (by norm_num)
    push_cast
    rw [Int.toNat_of_nonneg h0, Int.emod_emod_of_dvd _ (dvd_refl _)]
  · intro j hj hjeq
    rw [← hconv key hlo hhi] at hjeq
    have h0 : (0 : Int) ≤ key % 4294967296 := Int.emod_nonneg _ (by norm_num)
    zify
    rw [Int.toNat_of_nonneg h0, ← hjeq]
    exact (Int.emod_eq_of_lt (by positivity) (by exact_mod_cast hj)).symm
  · intro h
    exact hnn key h hhi
  · intro h h' hhi' heq
    rw [hnn key h hhi, hnn key' h' hhi', heq]

/-- Claim C10 (amended) at capacity 179 with the keys 1 and 180. -/
theorem hash_is_unsigned_key_modulo_witness :
    (0 < 179 ∧ (-2147483648 : Int) ≤ 1 ∧ (1 : Int) ≤ 2147483647) ∧
    ((∃ i, hash 179 1 = Except.ok i ∧ i < 179 ∧
      (i : Int) % (179 : Nat) = toUnsigned 1 % (179 : Nat) ∧
      ∀ j : Nat, j < 179 → (j : Int) % (179 : Nat) = toUnsigned 1 % (179 : Nat) → j = i) ∧
    ((0 : Int) ≤ 1 → hash 179 1 = Except.ok ((1 : Int) % (179 : Nat)).toNat) ∧
    ((0 : Int) ≤ 1 → (0 : Int) ≤ 180 → (180 : Int) ≤ 2147483647 →
      (1 : Int) % (179 : Nat) = 180 % (179 : Nat) → hash 179 1 = hash 179 180)) :=
  ⟨⟨by decide, by decide, by decide⟩,
    hash_is_unsigned_key_modulo 179 (by decide) 1 180 (by decide) (by decide)⟩

/-! ## Ids without a leading number -/

theorem atoiDigits_of_not_digit (cs : List Char)
    (h : ∀ c rest, cs = c :: rest → c.isDigit = false) : atoiDigits 0 cs = 0 := by
  cases cs with
  | nil => rfl
  | cons c rest => simp [atoiDigits, h c rest rfl]

theorem toInt32_clamp_zero :
    toInt32 (max (-9223372036854775808) (min 0 9223372036854775807)) = 0 := by
  decide

/-- When no digit follows the white space and sign, `atoi` returns 0. -/
theorem atoi_eq_zero (s : String) (h : startsWithNumber s = false) : atoi s = 0 := by
  unfold startsWithNumber digitStart at h
  unfold atoi
  generalize (s.toList.takeWhile (fun c => c != '\x00')).dropWhile isspace = cs at h ⊢
  rcases cs with _ | ⟨c, rest⟩
  · exact toInt32_clamp_zero
  · by_cases h1 : c = '-'
    · subst h1
      have hd : atoiDigits 0 rest = 0 :=
        atoiDigits_of_not_digit rest (fun d ds hds => by subst hds; simpa using h)
      simp only [hd]
      exact toInt32_clamp_zero
    · by_cases h2 : c = '+'
      · subst h2
        have hd : atoiDigits 0 rest = 0 :=
          atoiDigits_of_not_digit rest (fun d ds hds => by subst hds; simpa using h)
        simp only [hd]
        exact toInt32_clamp_zero
      · have hc : c.isDigit = false := by simpa [h1, h2] using h
        have hd : atoiDigits 0 (c :: rest) = 0 :=
          atoiDigits_of_not_digit _ (fun d ds hds => by
            cases hds
            exact hc)
        have hm : (match c :: rest with
            | '-' :: ds => - (atoiDigits 0 ds : Int)
            | '+' :: ds => (atoiDigits 0 ds : Int)
            | ds => (atoiDigits 0 ds : Int)) = (atoiDigits 0 (c :: rest) : Int) := by
          split
          · simp_all
          · simp_all
          · rfl
        simp only [hm, hd]
        exact toInt32_clamp_zero

theorem indexOf_eq_zero (cap : Nat) (s : String) (h : startsWithNumber s = false) :
    indexOf cap s = 0 := by
  unfold indexOf
  rw [atoi_eq_zero s h]
  simp

/-- The slot that `Search` reads is the one at the bucket index of the id. -/
theorem search_reads_one_slot {cap : Nat} (hcap : 0 < cap) (u v : HashTable) (bidId : String)
    (hu : u.tableSize = cap) (hv : v.tableSize = cap)
    (hslot : vectorAt u.nodes (indexOf cap bidId) = vectorAt v.nodes (indexOf cap bidId)) :
    u.Search bidId = v.Search bidId := by
  unfold HashTable.Search
  rw [hu, hv, hash_atoi hcap]
  simp only [bind, Except.bind, hslot]

theorem getElem?_tableOf (cap : Nat) (bids : List Bid) (i : Nat) :
    (tableOf cap bids).nodes[i]?
      = if i < cap then some (slotOf i (bucketOf cap i bids)) else none := by
  by_cases hi : i < cap
  · simp [tableOf, List.getElem?_map, List.getElem?_range hi, hi]
  · simp [tableOf, hi, Nat.le_of_not_lt hi]

theorem entries_chainOf (key : Nat) (bids : List Bid) :
    (chainOf key bids).entries = bids.map (fun b => (b, key)) := by
  induction bids with
  | nil => rfl
  | cons b bs ih => simp [chainOf, NodePtr.entries, ih]

/-- Claim C11, as stated, fails for an id that contains a letter after leading
digits: the id "12ab" is not a string of digits, `atoi` returns 12, and with
capacity 179 `Insert` stores the record at index 12 and leaves index 0 empty. -/
theorem id_with_leading_digits_not_in_bucket_zero :
    (∃ c ∈ bidTwelveAb.bidId.toList, c.isDigit = false) ∧
    atoi bidTwelveAb.bidId = 12 ∧
    hash 179 (atoi bidTwelveAb.bidId) = Except.ok 12 ∧
    (do
      let t ← (HashTable.new 179).Insert bidTwelveAb
      vectorAt t.nodes 12) = Except.ok { bid := bidTwelveAb, key := 12, next := NodePtr.null } ∧
    (do
      let t ← (HashTable.new 179).Insert bidTwelveAb
      vectorAt t.nodes 0) = Except.ok Node.default := by
  set_option maxRecDepth 100000 in decide

/-- Claim C11 (amended): for every capacity in `(0, 2^32)` and every record
whose id, after its leading white space and one optional sign, does not
continue with a decimal digit (the empty id included), `atoi` returns 0 and
`hash` gives index 0; on a table built from a fresh one by `Insert` calls,
`Insert` of the record returns normally and appends it to the bucket at index
0; and `Search` of that id, on any table of that capacity, reads only the slot
at index 0. -/
theorem id_without_number_goes_to_bucket_zero (cap : Nat) (hcap : 0 < cap)
    (hmax : cap < 4294967296) (bids : List Bid) (r : Bid)
    (hmal : startsWithNumber r.bidId = false) :
    atoi r.bidId = 0 ∧ hash cap (atoi r.bidId) = Except.ok 0 ∧
    (∃ t t' n n', (HashTable.new cap).insertAll bids = Except.ok t ∧
      t.Insert r = Except.ok t' ∧ vectorAt t.nodes 0 = Except.ok n ∧
      vectorAt t'.nodes 0 = Except.ok n' ∧ n'.print = n.print ++ [r]) ∧
    (∀ u v : HashTable, u.tableSize = cap → v.tableSize = cap →
      vectorAt u.nodes 0 = vectorAt v.nodes 0 → u.Search r.bidId = v.Search r.bidId) := by
  have hidx : indexOf cap r.bidId = 0 := indexOf_eq_zero cap r.bidId hmal
  have hne : (0 : Nat) ≠ UINT_MAX := by unfold UINT_MAX; omega
  refine ⟨atoi_eq_zero r.bidId hmal, ?_, ?_, ?_⟩
  · rw [hash_atoi hcap, hidx]
  · refine ⟨tableOf cap bids, tableOf cap (bids ++ [r]), _, _, insertAll_new hcap hmax bids,
      insert_tableOf hcap hmax bids r, vectorAt_tableOf bids hcap,
      vectorAt_tableOf (bids ++ [r]) hcap, ?_⟩
    have hself := bucketOf_single_self hcap r
    rw [hidx] at hself
    rw [print_slotOf hne, print_slotOf hne, bucketOf_append, hself]
  · intro u v hu hv hslot
    apply search_reads_one_slot hcap u v r.bidId hu hv
    rw [hidx]
    exact hslot

/-- Claim C11 (amended) at capacity 179 with the empty id. -/
theorem id_without_number_goes_to_bucket_zero_witness :
    (0 < 179 ∧ 179 < 4294967296 ∧ startsWithNumber bidNoId.bidId = false) ∧
    (atoi bidNoId.bidId = 0 ∧ hash 179 (atoi bidNoId.bidId) = Except.ok 0 ∧
    (∃ t t' n n', (HashTable.new 179).insertAll [bidAbc] = Except.ok t ∧
      t.Insert bidNoId = Except.ok t' ∧ vectorAt t.nodes 0 = Except.ok n ∧
      vectorAt t'.nodes 0 = Except.ok n' ∧ n'.print = n.print ++ [bidNoId]) ∧
    (∀ u v : HashTable, u.tableSize = 179 → v.tableSize = 179 →
      vectorAt u.nodes 0 = vectorAt v.nodes 0 →
      u.Search bidNoId.bidId = v.Search bidNoId.bidId)) :=
  ⟨⟨by decide, by decide, by decide⟩,
    id_without_number_goes_to_bucket_zero 179 (by decide) (by decide) [bidAbc] bidNoId
      (by decide)⟩

/-! ## Construction with capacity zero -/

/-- Claim C12, as stated, fails: the constructor called with capacity 0 does
not fail; it returns a table with no slot and `tableSize = 0`, and the first
`Insert` then reaches the division by zero in `hash`. -/
theorem zero_capacity_is_constructed :
    HashTable.construct 0 = Except.ok { nodes := [], tableSize := 0 } ∧
    (do
      let t ← HashTable.construct 0
      t.Insert bidOne) = Except.error Fault.divisionByZero := by
  decide

/-- Claim C12 (amended): constructing a table with capacity 0 returns normally,
with an empty slot vector and `tableSize = 0`; the failure comes afterwards:
every `Insert`, `Search` and `Remove` on that table reaches the division by
zero in `hash`, before any access to the slot vector. -/
theorem zero_capacity_fails_in_hash (r : Bid) (bidId : String) :
    HashTable.construct 0 = Except.ok (HashTable.new 0) ∧
    (HashTable.new 0).nodes = [] ∧ (HashTable.new 0).tableSize = 0 ∧
    hash (HashTable.new 0).tableSize (atoi bidId) = Except.error Fault.divisionByZero ∧
    (HashTable.new 0).Insert r = Except.error Fault.divisionByZero ∧
    (HashTable.new 0).Search bidId = Except.error Fault.divisionByZero ∧
    (HashTable.new 0).Remove bidId = Except.error Fault.divisionByZero := by
  refine ⟨rfl, rfl, rfl, ?_, ?_, ?_, ?_⟩
  · simp [HashTable.new, hash]
  · simp [HashTable.Insert, HashTable.new, hash, bind, Except.bind]
  · simp [HashTable.Search, HashTable.new, hash, bind, Except.bind]
  · simp [HashTable.Remove, HashTable.new, hash, bind, Except.bind]

/-! ## Search returns the earliest match -/

/-- Claim C13: for every capacity in `(0, 2^32)`, every sequence of records
inserted into a fresh table and every id string `s`, the `Insert` calls return
normally and `Search(s)` returns the earliest-inserted record whose id string
equals `s`, and the default bid when no inserted record has id `s`; so what it
returns is either an inserted record with id string `s` or the default bid,
never an inserted record with another id. -/
theorem search_returns_earliest_match (cap : Nat) (hcap : 0 < cap) (hmax : cap < 4294967296)
    (bids : List Bid) (s : String) :
    ∃ t, (HashTable.new cap).insertAll bids = Except.ok t ∧
      t.Search s = Except.ok ((bids.find? (fun b => b.bidId = s)).getD Bid.default) ∧
      (∀ pre r post, bids = pre ++ r :: post → r.bidId = s → (∀ x ∈ pre, x.bidId ≠ s) →
        t.Search s = Except.ok r) ∧
      ((∀ r ∈ bids, r.bidId ≠ s) → t.Search s = Except.ok Bid.default) ∧
      (∀ b, t.Search s = Except.ok b →
        (b ∈ bids ∧ b.bidId = s) ∨ (b = Bid.default ∧ ∀ r ∈ bids, r.bidId ≠ s)) := by
  have hs := search_tableOf hcap hmax bids s
  refine ⟨tableOf cap bids, insertAll_new hcap hmax bids, hs, ?_, ?_, ?_⟩
  · intro pre r post hbids hr hpre
    have hnone : pre.find? (fun b => b.bidId = s) = none := by
      rw [List.find?_eq_none]
      intro x hx
      simpa using hpre x hx
    rw [hs, hbids, List.find?_append, hnone]
    simp [hr]
  · intro hall
    have hnone : bids.find? (fun b => b.bidId = s) = none := by
      rw [List.find?_eq_none]
      intro x hx
      simpa using hall x hx
    rw [hs, hnone]
    rfl
  · intro b hb
    rw [hs] at hb
    cases hf : bids.find? (fun b => b.bidId = s) with
    | none =>
      right
      rw [hf] at hb
      refine ⟨(Except.ok.inj hb).symm, ?_⟩
      intro r hr
      have := List.find?_eq_none.mp hf r hr
      simpa using this
    | some x =>
      left
      rw [hf] at hb
      have hx : x = b := Except.ok.inj hb
      subst hx
      exact ⟨List.mem_of_find?_eq_some hf, by simpa using List.find?_some hf⟩

/-- Claim C13 at capacity 179: the ids "1" and "180" collide, and
`Search("180")` returns the record with id "180". -/
theorem search_returns_earliest_match_witness :
    (0 < 179 ∧ 179 < 4294967296) ∧
    ∃ t, (HashTable.new 179).insertAll [bidOne, bidOneEighty] = Except.ok t ∧
      t.Search "180" = Except.ok
        (([bidOne, bidOneEighty].find? (fun b => b.bidId = "180")).getD Bid.default) ∧
      (∀ pre r post, [bidOne, bidOneEighty] = pre ++ r :: post → r.bidId = "180" →
        (∀ x ∈ pre, x.bidId ≠ "180") → t.Search "180" = Except.ok r) ∧
      ((∀ r ∈ [bidOne, bidOneEighty], r.bidId ≠ "180") →
        t.Search "180" = Except.ok Bid.default) ∧
      (∀ b, t.Search "180" = Except.ok b →
        (b ∈ [bidOne, bidOneEighty] ∧ b.bidId = "180") ∨
          (b = Bid.default ∧ ∀ r ∈ [bidOne, bidOneEighty], r.bidId ≠ "180")) :=
  ⟨⟨by decide, by decide⟩,
    search_returns_earliest_match 179 (by decide) (by decide) [bidOne, bidOneEighty] "180"⟩

/-! ## The shape of the table after Insert calls -/

/-- Claim C14: viewing a slot as the list of records `PrintAll` reads from it
(empty for a sentinel head), for every capacity in `(0, 2^32)`, every table
built from a fresh one by `Insert` calls and every record `r` with bucket index
`k`, `Insert(r)` returns normally and turns the list `L` of slot `k` into `L`
followed by `r`: when `L` is empty the head is the sentinel and is overwritten
by `r` with key `k` and no chain, otherwise the head keeps its bid and key and
a new node is attached after the last node; every other slot, the number of
slots and `tableSize` are unchanged. -/
theorem insert_appends_to_one_bucket (cap : Nat) (hcap : 0 < cap) (hmax : cap < 4294967296)
    (bids : List Bid) (r : Bid) :
    ∃ t t' k n n', (HashTable.new cap).insertAll bids = Except.ok t ∧
      hash cap (atoi r.bidId) = Except.ok k ∧ t.Insert r = Except.ok t' ∧
      vectorAt t.nodes k = Except.ok n ∧ vectorAt t'.nodes k = Except.ok n' ∧
      n'.print = n.print ++ [r] ∧
      (n.print = [] → n.key = UINT_MAX ∧ n' = { bid := r, key := k, next := NodePtr.null }) ∧
      (n.print ≠ [] → n' = { n with next := n.next.attach r k } ∧
        n'.next.printChain = n.next.printChain ++ [r]) ∧
      (∀ i, i ≠ k → t'.nodes[i]? = t.nodes[i]?) ∧
      t'.nodes.length = t.nodes.length ∧ t'.tableSize = t.tableSize := by
  have hk : indexOf cap r.bidId < cap := indexOf_lt hcap r.bidId
  have hne : indexOf cap r.bidId ≠ UINT_MAX := by unfold UINT_MAX; omega
  have hb : bucketOf cap (indexOf cap r.bidId) (bids ++ [r])
      = bucketOf cap (indexOf cap r.bidId) bids ++ [r] := by
    rw [bucketOf_append, bucketOf_single_self hcap]
  refine ⟨tableOf cap bids, tableOf cap (bids ++ [r]), indexOf cap r.bidId, _, _,
    insertAll_new hcap hmax bids, hash_atoi hcap r.bidId, insert_tableOf hcap hmax bids r,
    vectorAt_tableOf bids hk, vectorAt_tableOf (bids ++ [r]) hk, ?_, ?_, ?_, ?_, ?_, rfl⟩
  · rw [print_slotOf hne, print_slotOf hne, hb]
  · intro hnil
    rw [print_slotOf hne] at hnil
    rw [hb, hnil]
    exact ⟨rfl, rfl⟩
  · intro hcons
    rw [print_slotOf hne] at hcons
    rw [hb]
    cases hL : bucketOf cap (indexOf cap r.bidId) bids with
    | nil => exact absurd hL hcons
    | cons b bs =>
      simp [slotOf, attach_chainOf, printChain_chainOf]
  · intro i hi
    rw [getElem?_tableOf, getElem?_tableOf, bucketOf_append, bucketOf_single_other hcap r hi,
      List.append_nil]
  · simp [tableOf]

/-- Claim C14 at capacity 179: `Insert` of id "180" after id "1". -/
theorem insert_appends_to_one_bucket_witness :
    (0 < 179 ∧ 179 < 4294967296) ∧
    ∃ t t' k n n', (HashTable.new 179).insertAll [bidOne] = Except.ok t ∧
      hash 179 (atoi bidOneEighty.bidId) = Except.ok k ∧ t.Insert bidOneEighty = Except.ok t' ∧
      vectorAt t.nodes k = Except.ok n ∧ vectorAt t'.nodes k = Except.ok n' ∧
      n'.print = n.print ++ [bidOneEighty] ∧
      (n.print = [] → n.key = UINT_MAX ∧
        n' = { bid := bidOneEighty, key := k, next := NodePtr.null }) ∧
      (n.print ≠ [] → n' = { n with next := n.next.attach bidOneEighty k } ∧
        n'.next.printChain = n.next.printChain ++ [bidOneEighty]) ∧
      (∀ i, i ≠ k → t'.nodes[i]? = t.nodes[i]?) ∧
      t'.nodes.length = t.nodes.length ∧ t'.tableSize = t.tableSize :=
  ⟨⟨by decide, by decide⟩,
    insert_appends_to_one_bucket 179 (by decide) (by decide) [bidOne] bidOneEighty⟩

/-- Claim C15: for every capacity in `(0, 2^32)`, every table built from a
fresh one by `Insert` calls and every index `i` below the capacity, the head of
slot `i`, when occupied, has stored key `i`, which is the `hash` of its
record's parsed id, and every node after the head has a stored key that is not
the sentinel, equals `i`, and is the `hash` of its record's parsed id. -/
theorem stored_key_is_bucket_index (cap : Nat) (hcap : 0 < cap) (hmax : cap < 4294967296)
    (bids : List Bid) (i : Nat) (hi : i < cap) :
    ∃ t n, (HashTable.new cap).insertAll bids = Except.ok t ∧
      vectorAt t.nodes i = Except.ok n ∧
      (n.key ≠ UINT_MAX → n.key = i ∧ hash cap (atoi n.bid.bidId) = Except.ok i) ∧
      (∀ e ∈ n.next.entries,
        e.2 ≠ UINT_MAX ∧ e.2 = i ∧ hash cap (atoi e.1.bidId) = Except.ok i) := by
  have hne : i ≠ UINT_MAX := by unfold UINT_MAX; omega
  refine ⟨tableOf cap bids, _, insertAll_new hcap hmax bids, vectorAt_tableOf bids hi, ?_, ?_⟩
  · intro hocc
    cases hL : bucketOf cap i bids with
    | nil =>
      rw [hL] at hocc
      exact absurd rfl hocc
    | cons b bs =>
      have hb : b ∈ bucketOf cap i bids := by rw [hL]; exact List.mem_cons_self _ _
      have := (mem_bucketOf hcap i bids b).mp hb
      refine ⟨rfl, ?_⟩
      show hash cap (atoi b.bidId) = Except.ok i
      rw [hash_atoi hcap, this.2]
  · intro e he
    cases hL : bucketOf cap i bids with
    | nil =>
      rw [hL] at he
      simp [slotOf, Node.default, NodePtr.entries] at he
    | cons b bs =>
      rw [hL] at he
      simp only [slotOf, entries_chainOf, List.mem_map] at he
      obtain ⟨x, hx, rfl⟩ := he
      have hb : x ∈ bucketOf cap i bids := by rw [hL]; exact List.mem_cons_of_mem _ hx
      have := (mem_bucketOf hcap i bids x).mp hb
      refine ⟨hne, rfl, ?_⟩
      show hash cap (atoi x.bidId) = Except.ok i
      rw [hash_atoi hcap, this.2]

/-- Claim C15 at capacity 179, slot 1, after `Insert` of the ids "1" and "180". -/
theorem stored_key_is_bucket_index_witness :
    (0 < 179 ∧ 179 < 4294967296 ∧ 1 < 179) ∧
    ∃ t n, (HashTable.new 179).insertAll [bidOne, bidOneEighty] = Except.ok t ∧
      vectorAt t.nodes 1 = Except.ok n ∧
      (n.key ≠ UINT_MAX → n.key = 1 ∧ hash 179 (atoi n.bid.bidId) = Except.ok 1) ∧
      (∀ e ∈ n.next.entries,
        e.2 ≠ UINT_MAX ∧ e.2 = 1 ∧ hash 179 (atoi e.1.bidId) = Except.ok 1) :=
  ⟨⟨by decide, by decide, by decide⟩,
    stored_key_is_bucket_index 179 (by decide) (by decide) [bidOne, bidOneEighty] 1
      (by decide)⟩

/-! ## What Remove does to the vector -/

/-- Claim C16: for every table state and every id whose bucket index `k` is
below the current number of slots, `Remove(id)` returns normally and deletes
the element at position `k` of the vector: the slots below `k` are unchanged,
every position `j ≥ k` afterwards holds what position `j + 1` held before, the
number of slots drops by one, and `tableSize`, which `hash` reduces by, is
unchanged. -/
theorem remove_erases_vector_element (t : HashTable) (bidId : String) (k : Nat)
    (hk : hash t.tableSize (atoi bidId) = Except.ok k) (hlt : k < t.nodes.length) :
    ∃ t', t.Remove bidId = Except.ok t' ∧
      t'.nodes = t.nodes.eraseIdx k ∧
      (∀ j, j < k → t'.nodes[j]? = t.nodes[j]?) ∧
      (∀ j, k ≤ j → t'.nodes[j]? = t.nodes[j + 1]?) ∧
      t'.nodes.length + 1 = t.nodes.length ∧
      t'.tableSize = t.tableSize := by
  refine ⟨{ t with nodes := t.nodes.eraseIdx k }, ?_, rfl, ?_, ?_, ?_, rfl⟩
  · unfold HashTable.Remove
    rw [hk]
    simp [bind, Except.bind, hlt, pure, Except.pure]
  · intro j hj
    exact List.getElem?_eraseIdx_of_lt _ _ _ hj
  · intro j hj
    exact List.getElem?_eraseIdx_of_ge _ _ _ hj
  · show (t.nodes.eraseIdx k).length + 1 = t.nodes.length
    rw [List.length_eraseIdx, if_pos hlt]
    omega

/-- Claim C16 at capacity 179: `Remove("1")` on the fresh table. -/
theorem remove_erases_vector_element_witness :
    (hash (HashTable.new 179).tableSize (atoi "1") = Except.ok 1 ∧
      1 < (HashTable.new 179).nodes.length) ∧
    ∃ t', (HashTable.new 179).Remove "1" = Except.ok t' ∧
      t'.nodes = (HashTable.new 179).nodes.eraseIdx 1 ∧
      (∀ j, j < 1 → t'.nodes[j]? = (HashTable.new 179).nodes[j]?) ∧
      (∀ j, 1 ≤ j → t'.nodes[j]? = (HashTable.new 179).nodes[j + 1]?) ∧
      t'.nodes.length + 1 = (HashTable.new 179).nodes.length ∧
      t'.tableSize = (HashTable.new 179).tableSize :=
  ⟨⟨by decide, by set_option maxRecDepth 100000 in decide⟩,
    remove_erases_vector_element (HashTable.new 179) "1" 1 (by decide)
      (by set_option maxRecDepth 100000 in decide)⟩

/-! ## The sentinel -/

/-- Claim C17: for every capacity in `(0, 2^32)` and every `int` key,
`hash(key)` is not the sentinel `UINT_MAX`; and in every table built from a
fresh one by `Insert` calls, for every index `i` below the capacity, the head
of slot `i` carries the sentinel exactly when no inserted record hashes to
`i`, and a head carrying the sentinel has no chain node attached. -/
theorem sentinel_is_never_a_bucket_index (cap : Nat) (hcap : 0 < cap)
    (hmax : cap < 4294967296) (key : Int) (bids : List Bid) (i : Nat) (hi : i < cap) :
    (∃ k, hash cap key = Except.ok k ∧ k ≠ UINT_MAX) ∧
    ∃ t n, (HashTable.new cap).insertAll bids = Except.ok t ∧
      vectorAt t.nodes i = Except.ok n ∧
      (n.key = UINT_MAX ↔ ∀ b ∈ bids, hash cap (atoi b.bidId) ≠ Except.ok i) ∧
      (n.key = UINT_MAX → n.next = NodePtr.null) := by
  have hne : i ≠ UINT_MAX := by unfold UINT_MAX; omega
  refine ⟨⟨_, hash_eq_ok hcap key, ?_⟩, tableOf cap bids, _, insertAll_new hcap hmax bids,
    vectorAt_tableOf bids hi, ?_, ?_⟩
  · have : (key % 4294967296).toNat % cap < cap := Nat.mod_lt _ hcap
    unfold UINT_MAX
    omega
  · cases hL : bucketOf cap i bids with
    | nil =>
      constructor
      · intro _ b hb hhash
        have hmem : b ∈ bucketOf cap i bids := by
          rw [mem_bucketOf hcap]
          refine ⟨hb, ?_⟩
          rw [hash_atoi hcap] at hhash
          exact Except.ok.inj hhash
        rw [hL] at hmem
        exact absurd hmem (List.not_mem_nil _)
      · intro _
        rfl
    | cons b bs =>
      have hb : b ∈ bucketOf cap i bids := by rw [hL]; exact List.mem_cons_self _ _
      have hmem := (mem_bucketOf hcap i bids b).mp hb
      constructor
      · intro hkey
        exact absurd hkey hne
      · intro hall
        exact absurd (by rw [hash_atoi hcap, hmem.2]) (hall b hmem.1)
  · intro hkey
    cases hL : bucketOf cap i bids with
    | nil => rfl
    | cons b bs =>
      rw [hL] at hkey
      exact absurd hkey hne

/-- Claim C17 at capacity 179, key `-1`, slot 1, after `Insert` of id "1". -/
theorem sentinel_is_never_a_bucket_index_witness :
    (0 < 179 ∧ 179 < 4294967296 ∧ 1 < 179) ∧
    ((∃ k, hash 179 (-1) = Except.ok k ∧ k ≠ UINT_MAX) ∧
    ∃ t n, (HashTable.new 179).insertAll [bidOne] = Except.ok t ∧
      vectorAt t.nodes 1 = Except.ok n ∧
      (n.key = UINT_MAX ↔ ∀ b ∈ [bidOne], hash 179 (atoi b.bidId) ≠ Except.ok 1) ∧
      (n.key = UINT_MAX → n.next = NodePtr.null)) :=
  ⟨⟨by decide, by decide, by decide⟩,
    sentinel_is_never_a_bucket_index 179 (by decide) (by decide) (-1) [bidOne] 1 (by decide)⟩

end HashTableCpp
